import Mathlib

/-!
Verification of the ENML content formatter and section editor of the
agent-artifacts repository.

The program under study manipulates note documents as plain strings.
Strings are modelled as lists of characters; every definition below is a
direct translation of the corresponding TypeScript function (from
skills/evernote/references/enml-guide.md, skills/evernote/scripts/update-note.ts
and skills/evernote/scripts/read-note.ts).  JavaScript regular-expression
matching, which the section editor uses to locate headings, is modelled by a
small executable engine covering exactly the construct set appearing in the
patterns the program builds (literals, groups, character classes, the dot,
the whitespace class, and the star/plus/question quantifiers, all with the
case-insensitive flag).
-/

namespace AgentArtifacts

/-- JavaScript whitespace (the regex class matched by a backslash-s escape and
by String.prototype.trim): space, tab, line feed, vertical tab, form feed,
carriage return, NBSP, Ogham space mark, the U+2000..U+200A range, line and
paragraph separators, narrow NBSP, medium mathematical space, ideographic
space and the BOM. -/
def isJsWhitespace (c : Char) : Bool :=
  c == ' ' || c == '\t' || c == '\n' || c.val == 0x0B || c.val == 0x0C || c == '\r' ||
  c.val == 0xA0 || c.val == 0x1680 || (0x2000 ≤ c.val && c.val ≤ 0x200A) ||
  c.val == 0x2028 || c.val == 0x2029 || c.val == 0x202F || c.val == 0x205F ||
  c.val == 0x3000 || c.val == 0xFEFF

/-- JavaScript line terminators, which the regex dot does not match. -/
def isLineTerminator (c : Char) : Bool :=
  c == '\n' || c == '\r' || c.val == 0x2028 || c.val == 0x2029

/-- Case-insensitive character comparison used by regexes compiled with the
i flag (ASCII folding, which covers every character these scripts compare). -/
def charEqCI (a b : Char) : Bool :=
  a.toLower == b.toLower

/-- One global single-character replacement: the translation of
JavaScript text.replace(/c/g, r) for a single-character pattern c, which
replaces every occurrence of that character by the string r. -/
def replaceChar (c : Char) (r : List Char) : List Char → List Char
  | [] => []
  | a :: t => (if a = c then r else [a]) ++ replaceChar c r t

/-- escapeForEnml from references/enml-guide.md: chained global replaces of
the ampersand, angle brackets and double quote by their entities, then of
the newline by a self-closing break element. -/
def escapeForEnml (text : List Char) : List Char :=
  replaceChar '\n' "<br/>".data <|
    replaceChar '"' "&quot;".data <|
      replaceChar '>' "&gt;".data <|
        replaceChar '<' "&lt;".data <|
          replaceChar '&' "&amp;".data text

/-- The inline escaping performed by prependToSection, appendToSection and
appendToEnd in scripts/update-note.ts: same chain as escapeForEnml but
without the double-quote step. -/
def escapeNoteContent (text : List Char) : List Char :=
  replaceChar '\n' "<br/>".data <|
    replaceChar '>' "&gt;".data <|
      replaceChar '<' "&lt;".data <|
        replaceChar '&' "&amp;".data text

/-- The fixed ENML document header (XML declaration plus doctype), a
constant of references/enml-guide.md. -/
def ENML_HEADER : List Char :=
  ("<?xml version=\"1.0\" encoding=\"UTF-8\"?>\n<!DOCTYPE en-note SYSTEM \"http://xml.evernote.com/pub/enml2.dtd\">").data

/-- wrapEnml from references/enml-guide.md: template literal placing the body
between the header and the root wrapper tags. -/
def wrapEnml (bodyHtml : List Char) : List Char :=
  ENML_HEADER ++ "\n<en-note>\n".data ++ bodyHtml ++ "\n</en-note>".data

/-- JavaScript template interpolation of a possibly undefined value: the
switch in toEnmlBody has no default branch, so an unrecognized format tag
falls through and the function returns undefined, which a template literal
renders as the text "undefined".  Option.none models that undefined result. -/
def jsStr : Option (List Char) → List Char
  | some s => s
  | none => "undefined".data

/-- toEnmlBody from references/enml-guide.md.  The markdown branch delegates
to markdownToBody, which is a configuration of the external marked library
(not part of this repository); it is abstracted here as the function
parameter render.  The format tag is a runtime string; a tag other than the
three known ones falls through the switch and yields undefined (none). -/
def toEnmlBody (render : List Char → List Char) (content : List Char)
    (format : List Char) : Option (List Char) :=
  if format = "markdown".data then some (render content)
  else if format = "plain".data then some (escapeForEnml content)
  else if format = "enml".data then some content
  else none

/-- toEnmlDocument from references/enml-guide.md: the enml tag passes the
content through unchanged; any other tag wraps the toEnmlBody result (with
undefined interpolating as the text "undefined"). -/
def toEnmlDocument (render : List Char → List Char) (content : List Char)
    (format : List Char) : List Char :=
  if format = "enml".data then content
  else wrapEnml (jsStr (toEnmlBody render content format))

/-! ### A model of the JavaScript regular expressions used by the scripts

The section editor builds its patterns by splicing the caller-supplied
section name into a template, so the matcher must model genuine regex
compilation and matching, not plain substring search.  The engine below
covers the constructs those patterns can contain: character literals,
backslash escapes (with backslash-s as the whitespace class and any other
escaped character as a literal), the dot, bracketed character classes with
optional negation, groups, the star/plus/question quantifiers, and the
case-insensitive flag.  Compilation failure (none) models the SyntaxError
thrown by the RegExp constructor. -/

/-- Abstract syntax of the supported regex subset. -/
inductive RE where
  | eps : RE
  | ch : Char → RE
  | anyc : RE
  | wsc : RE
  | cls : Bool → List Char → RE
  | seq : RE → RE → RE
  | star : RE → RE
  | plus : RE → RE
  | opt : RE → RE
  | grp : RE → RE
deriving DecidableEq

/-- Does character a satisfy a (possibly negated) character class, under the
case-insensitive flag. -/
def clsMatch (neg : Bool) (cs : List Char) (a : Char) : Bool :=
  let m := cs.any (fun c => charEqCI a c)
  if neg then !m else m

/-- Parse the body of a bracketed character class (after the opening bracket
and optional caret), returning the member characters and the rest of the
pattern after the closing bracket.  A backslash escapes the next character. -/
def parseClassChars : List Char → Option (List Char × List Char)
  | [] => none
  | ']' :: t => some ([], t)
  | '\\' :: [] => none
  | '\\' :: c :: t => (parseClassChars t).map (fun p => (c :: p.1, p.2))
  | c :: t => (parseClassChars t).map (fun p => (c :: p.1, p.2))

mutual

/-- Parse one atom (group, class, escape, dot or literal) with an optional
trailing quantifier.  A quantifier with nothing to repeat, an unclosed
group or class, and the unsupported alternation bar are rejected (none),
modelling a RegExp SyntaxError. -/
def parseAtom (fuel : Nat) (s : List Char) : Option (RE × List Char) :=
  match fuel, s with
  | 0, _ => none
  | _, [] => none
  | fuel + 1, c :: t =>
    if c = '(' then
      match parseSeq fuel t with
      | some (r, ')' :: rest) => some (.grp r, rest)
      | _ => none
    else if c = '[' then
      match t with
      | '^' :: t2 => (parseClassChars t2).map (fun p => (.cls true p.1, p.2))
      | _ => (parseClassChars t).map (fun p => (.cls false p.1, p.2))
    else if c = '\\' then
      match t with
      | [] => none
      | e :: t2 => if e = 's' then some (.wsc, t2) else some (.ch e, t2)
    else if c = '.' then some (.anyc, t)
    else if c = '*' ∨ c = '+' ∨ c = '?' ∨ c = ')' ∨ c = '|' then none
    else some (.ch c, t)

/-- Parse a sequence of quantified atoms, stopping at a closing parenthesis
or the end of the pattern. -/
def parseSeq (fuel : Nat) (s : List Char) : Option (RE × List Char) :=
  match fuel, s with
  | 0, _ => none
  | _, [] => some (.eps, [])
  | _, ')' :: t => some (.eps, ')' :: t)
  | fuel + 1, s =>
    match parseAtom fuel s with
    | none => none
    | some (a, rest) =>
      let step : RE × List Char :=
        match rest with
        | '*' :: t2 => (.star a, t2)
        | '+' :: t2 => (.plus a, t2)
        | '?' :: t2 => (.opt a, t2)
        | _ => (a, rest)
      match parseSeq fuel step.2 with
      | none => none
      | some (b, rest2) => some (.seq step.1 b, rest2)

end

/-- Compile a regex source string; none models a SyntaxError from the RegExp
constructor (in particular on unbalanced parentheses). -/
def compileRegex (src : List Char) : Option RE :=
  match parseSeq (2 * src.length + 4) src with
  | some (r, []) => some r
  | _ => none

/-- Structural size of a regex, used to provision matcher fuel. -/
def reSize : RE → Nat
  | .eps => 1
  | .ch _ => 1
  | .anyc => 1
  | .wsc => 1
  | .cls _ _ => 1
  | .seq a b => reSize a + reSize b + 1
  | .star a => reSize a + 1
  | .plus a => reSize a + 1
  | .opt a => reSize a + 1
  | .grp a => reSize a + 1

/-- Backtracking matcher in continuation-passing style, reproducing the
JavaScript engine's leftmost-first semantics: greedy quantifiers try the
longer repetition first, and a quantifier iteration that consumes nothing
ends the repetition.  The fuel bounds the call depth; each invocation
consumes one unit, so any fuel at least (pattern size) times (input length)
plus both is never exhausted. -/
def matchHere : Nat → RE → List Char → (List Char → Option (List Char)) →
    Option (List Char)
  | 0, _, _, _ => none
  | fuel + 1, r, s, k =>
    match r with
    | .eps => k s
    | .ch c =>
      match s with
      | [] => none
      | a :: t => if charEqCI a c then k t else none
    | .anyc =>
      match s with
      | [] => none
      | a :: t => if isLineTerminator a then none else k t
    | .wsc =>
      match s with
      | [] => none
      | a :: t => if isJsWhitespace a then k t else none
    | .cls neg cs =>
      match s with
      | [] => none
      | a :: t => if clsMatch neg cs a then k t else none
    | .grp r1 => matchHere fuel r1 s k
    | .seq r1 r2 => matchHere fuel r1 s (fun s1 => matchHere fuel r2 s1 k)
    | .opt r1 =>
      match matchHere fuel r1 s k with
      | some v => some v
      | none => k s
    | .plus r1 =>
      matchHere fuel r1 s
        (fun s1 =>
          if s1.length < s.length then matchHere fuel (.star r1) s1 k else k s1)
    | .star r1 =>
      match
        matchHere fuel r1 s
          (fun s1 =>
            if s1.length < s.length then matchHere fuel (.star r1) s1 k
            else none)
      with
      | some v => some v
      | none => k s

/-- Length of the match of r at the start of s, if any. -/
def matchAt (r : RE) (s : List Char) : Option Nat :=
  match matchHere ((reSize r + 2) * (s.length + 2)) r s (fun rest => some rest) with
  | some rest => some (s.length - rest.length)
  | none => none

/-- Scan for the leftmost match, returning its index and length: the model of
String.prototype.match (index and matched-text length) for a non-global
regex. -/
def firstMatchGo (r : RE) : Nat → List Char → Option (Nat × Nat)
  | i, s =>
    match matchAt r s with
    | some l => some (i, l)
    | none =>
      match s with
      | [] => none
      | _ :: t => firstMatchGo r (i + 1) t

/-- Leftmost match of r in s as (index, length), or none. -/
def firstMatch (r : RE) (s : List Char) : Option (Nat × Nat) :=
  firstMatchGo r 0 s

/-! ### Plain substring search (String.prototype.indexOf and lastIndexOf) -/

/-- Leftmost index at which pat occurs in s (scan from position i). -/
def indexOfSubGo (pat : List Char) : Nat → List Char → Option Nat
  | i, s =>
    if pat.isPrefixOf s then some i
    else
      match s with
      | [] => none
      | _ :: t => indexOfSubGo pat (i + 1) t

/-- Model of s.indexOf(pat): leftmost occurrence index, or none. -/
def indexOfSub (s pat : List Char) : Option Nat :=
  indexOfSubGo pat 0 s

/-- Model of s.indexOf(pat) with the JavaScript result convention: the index,
or minus one when absent. -/
def indexOfSubJs (s pat : List Char) : Int :=
  match indexOfSub s pat with
  | some i => (i : Int)
  | none => -1

/-- Scan candidate start positions n, n-1, ..., 0 and return the first (hence
greatest) at which pat is a prefix of the rest of s. -/
def lastIdxGo (pat s : List Char) : Nat → Option Nat
  | 0 => if pat.isPrefixOf s then some 0 else none
  | n + 1 =>
    if pat.isPrefixOf (s.drop (n + 1)) then some (n + 1) else lastIdxGo pat s n

/-- Model of s.lastIndexOf(pat): greatest occurrence index, or none. -/
def lastIndexOfSub (s pat : List Char) : Option Nat :=
  lastIdxGo pat s s.length

/-- Does pat occur anywhere in s (at any start position). -/
def hasSub (s pat : List Char) : Bool :=
  (List.range (s.length + 1)).any (fun i => pat.isPrefixOf (s.drop i))

/-- Model of String.prototype.slice with a signed end index: a negative end
counts from the end of the string, and the result is empty when the clamped
end does not exceed the start. -/
def jsSlice (s : List Char) (start : Nat) (endI : Int) : List Char :=
  let e : Nat := if endI < 0 then ((s.length : Int) + endI).toNat
                 else min endI.toNat s.length
  (s.drop start).take (e - start)

/-! ### The section editor (scripts/update-note.ts and scripts/read-note.ts) -/

/-- The error outcomes of the section-editing scripts: the SyntaxError thrown
by the RegExp constructor on an invalid pattern, the Error thrown when the
named section is missing, and the Error thrown when the document has no
closing en-note tag. -/
inductive NoteError where
  | invalidRegex : NoteError
  | sectionNotFound : NoteError
  | malformedEnml : NoteError
deriving DecidableEq

/-- The heading pattern built by prependToSection and appendToSection: the
section name spliced, unescaped, into a grouped template. -/
def headerPatternGrouped (name : List Char) : List Char :=
  "(<h1[^>]*>\\s*".data ++ name ++ "\\s*</h1>)".data

/-- The heading pattern built by extractSection (same template without the
group). -/
def headerPatternPlain (name : List Char) : List Char :=
  "<h1[^>]*>\\s*".data ++ name ++ "\\s*</h1>".data

/-- The fixed next-heading regex of appendToSection and extractSection. -/
def h1OpenRE : RE :=
  (compileRegex "<h1[^>]*>".data).getD .eps

/-- The fixed closing-wrapper regex of appendToSection. -/
def endNoteRE : RE :=
  (compileRegex "<\\/en-note>".data).getD .eps

/-- The closing wrapper tag as a plain string (used by the indexOf and
lastIndexOf searches). -/
def endNoteTag : List Char := "</en-note>".data

/-- prependToSection from scripts/update-note.ts: escape the new content,
locate the section heading with a case-insensitive regex built from the
caller-supplied name, and insert a div-wrapped block immediately after the
heading's closing tag. -/
def prependToSection (content sectionName newContent : List Char) :
    Except NoteError (List Char) :=
  let escapedContent := escapeNoteContent newContent
  match compileRegex (headerPatternGrouped sectionName) with
  | none => .error .invalidRegex
  | some re =>
    match firstMatch re content with
    | none => .error .sectionNotFound
    | some (idx, len) =>
      let insertIndex := idx + len
      .ok (content.take insertIndex ++ "<div>".data ++ escapedContent ++
            "</div>".data ++ content.drop insertIndex)

/-- appendToSection from scripts/update-note.ts: locate the section heading,
then insert the div-wrapped block before the next h1 opening tag after the
heading, else before the closing wrapper tag, else at the end of the
string. -/
def appendToSection (content sectionName newContent : List Char) :
    Except NoteError (List Char) :=
  let escapedContent := escapeNoteContent newContent
  match compileRegex (headerPatternGrouped sectionName) with
  | none => .error .invalidRegex
  | some re =>
    match firstMatch re content with
    | none => .error .sectionNotFound
    | some (idx, len) =>
      let insertIndex := idx + len
      let afterHeader := content.drop insertIndex
      let insertPosition :=
        match firstMatch h1OpenRE afterHeader with
        | some (j, _) => insertIndex + j
        | none =>
          match firstMatch endNoteRE afterHeader with
          | some (j, _) => insertIndex + j
          | none => content.length
      .ok (content.take insertPosition ++ "<div>".data ++ escapedContent ++
            "</div>".data ++ content.drop insertPosition)

/-- appendToEnd from scripts/update-note.ts: insert the div-wrapped block
immediately before the last occurrence of the closing wrapper tag; error
when the tag is absent. -/
def appendToEnd (content newContent : List Char) : Except NoteError (List Char) :=
  let escapedContent := escapeNoteContent newContent
  match lastIndexOfSub content endNoteTag with
  | none => .error .malformedEnml
  | some endTagIndex =>
    .ok (content.take endTagIndex ++ "<div>".data ++ escapedContent ++
          "</div>".data ++ content.drop endTagIndex)

/-! ### Text extraction (scripts/read-note.ts, with stripEnml from
evernote-client.ts) -/

/-- Suffix after the first closing angle bracket, if one exists. -/
def findGt : List Char → Option (List Char)
  | [] => none
  | '>' :: t => some t
  | _ :: t => findGt t

/-- One global replace of every tag-shaped run (an opening angle bracket, a
run of non-closing-bracket characters, a closing angle bracket) by a single
space; an opening bracket with no later closing bracket stays as it is.
Fuel-indexed, with fuel at least the input length plus one never exhausted. -/
def stripTagsGo : Nat → List Char → List Char
  | 0, s => s
  | _, [] => []
  | fuel + 1, '<' :: rest =>
    match findGt rest with
    | some t => ' ' :: stripTagsGo fuel t
    | none => '<' :: stripTagsGo fuel rest
  | fuel + 1, c :: rest => c :: stripTagsGo fuel rest

/-- Collapse every maximal run of whitespace into a single space (the global
whitespace-run replace in stripEnml); prevWs records whether the previous
character was part of a run already collapsed. -/
def collapseWsGo : Bool → List Char → List Char
  | _, [] => []
  | prevWs, c :: t =>
    if isJsWhitespace c then
      if prevWs then collapseWsGo true t else ' ' :: collapseWsGo true t
    else c :: collapseWsGo false t

/-- Model of String.prototype.trim: drop leading and trailing whitespace. -/
def trimJs (s : List Char) : List Char :=
  ((s.dropWhile (fun c => isJsWhitespace c)).reverse.dropWhile
      (fun c => isJsWhitespace c)).reverse

/-- stripEnml from scripts/evernote-client.ts: remove tags, normalize
whitespace, trim. -/
def stripEnml (content : List Char) : List Char :=
  trimJs (collapseWsGo false (stripTagsGo (content.length + 1) content))

/-- extractSection from scripts/read-note.ts.  The end of the section span is
computed with a JavaScript truthiness test on the next-heading match index
(nextHeaderMatch?.index ? ... : ...), so a next-heading match at offset zero
is treated like no match and the span falls back to the first occurrence of
the closing wrapper tag (or slice end minus one when that is absent,
following the indexOf convention of minus one). -/
def extractSection (content sectionName : List Char) :
    Except NoteError (Option (List Char)) :=
  match compileRegex (headerPatternPlain sectionName) with
  | none => .error .invalidRegex
  | some re =>
    match firstMatch re content with
    | none => .ok none
    | some (idx, len) =>
      let startIndex := idx + len
      let endIndex : Int :=
        match firstMatch h1OpenRE (content.drop startIndex) with
        | some (j, _) =>
          if j = 0 then indexOfSubJs content endNoteTag
          else (startIndex : Int) + (j : Int)
        | none => indexOfSubJs content endNoteTag
      .ok (some (stripEnml (jsSlice content startIndex endIndex)))

/-! ### Vocabulary for the escaping properties

goodEnml is an independent scanner over an output string expressing that
every ampersand begins one of the four inserted entity sequences, every
opening angle bracket begins an inserted break element, and no closing
angle bracket or double quote occurs outside those insertions.  countSub
counts the occurrences of a pattern (the start positions at which it
appears). -/

/-- Scan a string block by block: each block is an inserted entity, an
inserted break element, or a single character that is none of the four
reserved characters. -/
def goodEnml : List Char → Bool
  | [] => true
  | c :: t =>
    if c = '&' then
      if List.isPrefixOf "amp;".data t then goodEnml (t.drop 4)
      else if List.isPrefixOf "lt;".data t then goodEnml (t.drop 3)
      else if List.isPrefixOf "gt;".data t then goodEnml (t.drop 3)
      else if List.isPrefixOf "quot;".data t then goodEnml (t.drop 5)
      else false
    else if c = '<' then
      if List.isPrefixOf "br/>".data t then goodEnml (t.drop 4) else false
    else if c = '>' then false
    else if c = '"' then false
    else goodEnml t
termination_by s => s.length
decreasing_by
  all_goals (simp only [List.length_drop, List.length_cons]; omega)

/-- Number of start positions at which pat occurs in s. -/
def countSub (pat s : List Char) : Nat :=
  (List.range (s.length + 1)).countP (fun i => pat.isPrefixOf (s.drop i))

/-- The per-character block of the escaping chain: what a single input
character contributes to the escaped output. -/
def escCharBlock (c : Char) : List Char :=
  if c = '&' then "&amp;".data
  else if c = '<' then "&lt;".data
  else if c = '>' then "&gt;".data
  else if c = '"' then "&quot;".data
  else if c = '\n' then "<br/>".data
  else [c]

/-! ### Concrete documents used in the claim instances -/

/-- The two-section document of the specification example. -/
def docTwoSections : List Char :=
  "<en-note><h1>Tasks</h1><div><br/></div><h1>Notes</h1><div><br/></div></en-note>".data

/-- A document with two adjacent headings whose text matches the same name
under case-insensitive comparison. -/
def docDup : List Char :=
  "<en-note><h1>Notes</h1><h1>notes</h1><div>x</div></en-note>".data

/-- A document whose only heading is named Anything. -/
def docMeta : List Char :=
  "<en-note><h1>Anything</h1><div>y</div></en-note>".data

/-! ### Lemmas about the escaping chain -/

theorem replaceChar_append (c : Char) (r x y : List Char) :
    replaceChar c r (x ++ y) = replaceChar c r x ++ replaceChar c r y := by
  induction x with
  | nil => rfl
  | cons a t ih => simp [replaceChar, ih]

/-- The five chained global replaces act independently on each input
character: no replacement output contains a character that a later
replacement in the chain targets. -/
theorem escapeForEnml_eq_flatMap (s : List Char) :
    escapeForEnml s = s.flatMap escCharBlock := by
  induction s with
  | nil => rfl
  | cons a t ih =>
    simp only [List.flatMap_cons, ← ih]
    show escapeForEnml (a :: t) = escCharBlock a ++ escapeForEnml t
    unfold escapeForEnml escCharBlock
    by_cases h1 : a = '&'
    · subst h1
      simp [replaceChar, replaceChar_append]
    · by_cases h2 : a = '<'
      · subst h2
        simp [replaceChar, replaceChar_append]
      · by_cases h3 : a = '>'
        · subst h3
          simp [replaceChar, replaceChar_append]
        · by_cases h4 : a = '"'
          · subst h4
            simp [replaceChar, replaceChar_append]
          · by_cases h5 : a = '\n'
            · subst h5
              simp [replaceChar, replaceChar_append]
            · simp [replaceChar, replaceChar_append, h1, h2, h3, h4, h5]

/-- Prepending one escaped block to a string preserves the scanner. -/
theorem goodEnml_block_append (a : Char) (r : List Char) :
    goodEnml (escCharBlock a ++ r) = goodEnml r := by
  unfold escCharBlock
  by_cases h1 : a = '&'
  · simp [h1, goodEnml, List.isPrefixOf]
  · by_cases h2 : a = '<'
    · simp [h1, h2, goodEnml, List.isPrefixOf]
    · by_cases h3 : a = '>'
      · simp [h1, h2, h3, goodEnml, List.isPrefixOf]
      · by_cases h4 : a = '"'
        · simp [h1, h2, h3, h4, goodEnml, List.isPrefixOf]
        · by_cases h5 : a = '\n'
          · simp [h1, h2, h3, h4, h5, goodEnml, List.isPrefixOf]
          · simp [h1, h2, h3, h4, h5, goodEnml]

theorem goodEnml_flatMap (s : List Char) :
    goodEnml (s.flatMap escCharBlock) = true := by
  induction s with
  | nil => simp [goodEnml]
  | cons a t ih => rw [List.flatMap_cons, goodEnml_block_append, ih]

theorem countSub_cons (pat : List Char) (c : Char) (t : List Char) :
    countSub pat (c :: t) =
      (if pat.isPrefixOf (c :: t) then 1 else 0) + countSub pat t := by
  unfold countSub
  rw [show (c :: t).length + 1 = (t.length + 1) + 1 from rfl,
    List.range_succ_eq_map, List.countP_cons, List.countP_map]
  have h1 : (List.range (t.length + 1)).countP
      ((fun i => pat.isPrefixOf ((c :: t).drop i)) ∘ Nat.succ) =
      (List.range (t.length + 1)).countP (fun i => pat.isPrefixOf (t.drop i)) := by
    apply List.countP_congr
    intro i _
    simp [Function.comp, List.drop_succ_cons]
  rw [h1]
  simp [Nat.add_comm]

theorem countSub_block (a : Char) (r : List Char) :
    countSub "<br/>".data (escCharBlock a ++ r) =
      (if a = '\n' then 1 else 0) + countSub "<br/>".data r := by
  unfold escCharBlock
  by_cases h1 : a = '&'
  · simp only [h1, if_pos rfl]
    show countSub "<br/>".data ('&' :: 'a' :: 'm' :: 'p' :: ';' :: r) = _
    rw [countSub_cons, countSub_cons, countSub_cons, countSub_cons, countSub_cons]
    simp [List.isPrefixOf]
  · by_cases h2 : a = '<'
    · simp only [h1, if_neg, h2, if_pos rfl, reduceIte]
      show countSub "<br/>".data ('&' :: 'l' :: 't' :: ';' :: r) = _
      rw [countSub_cons, countSub_cons, countSub_cons, countSub_cons]
      simp [List.isPrefixOf, h1, h2]
    · by_cases h3 : a = '>'
      · simp only [h1, h2, h3, reduceIte, if_pos rfl]
        show countSub "<br/>".data ('&' :: 'g' :: 't' :: ';' :: r) = _
        rw [countSub_cons, countSub_cons, countSub_cons, countSub_cons]
        simp [List.isPrefixOf, h1, h2, h3]
      · by_cases h4 : a = '"'
        · simp only [h1, h2, h3, h4, reduceIte, if_pos rfl]
          show countSub "<br/>".data ('&' :: 'q' :: 'u' :: 'o' :: 't' :: ';' :: r) = _
          rw [countSub_cons, countSub_cons, countSub_cons, countSub_cons,
            countSub_cons, countSub_cons]
          simp [List.isPrefixOf, h1, h2, h3, h4]
        · by_cases h5 : a = '\n'
          · simp only [h1, h2, h3, h4, h5, reduceIte, if_pos rfl]
            show countSub "<br/>".data ('<' :: 'b' :: 'r' :: '/' :: '>' :: r) = _
            rw [countSub_cons, countSub_cons, countSub_cons, countSub_cons,
              countSub_cons]
            simp [List.isPrefixOf]
          · simp only [h1, h2, h3, h4, h5, reduceIte]
            show countSub "<br/>".data (a :: r) = _
            rw [countSub_cons]
            have hne : "<br/>".data.isPrefixOf (a :: r) = false := by
              simp [List.isPrefixOf]
              intro h
              exact absurd h.symm h2
            simp [hne]

theorem countSub_br_flatMap (s : List Char) :
    countSub "<br/>".data (s.flatMap escCharBlock) = s.count '\n' := by
  induction s with
  | nil => rfl
  | cons a t ih =>
    rw [List.flatMap_cons, countSub_block, ih, List.count_cons]
    by_cases h : a = '\n' <;> simp [h, Nat.add_comm]

/-! ### Characterization of the last-occurrence search -/

theorem isPrefixOf_eq_false (pat l : List Char) (h : ¬pat.isPrefixOf l = true) :
    pat.isPrefixOf l = false :=
  Bool.eq_false_iff.mpr h

theorem lastIdxGo_some (pat s : List Char) (n p : Nat)
    (h : lastIdxGo pat s n = some p) :
    pat.isPrefixOf (s.drop p) = true ∧ p ≤ n ∧
      ∀ q, p < q → q ≤ n → pat.isPrefixOf (s.drop q) = false := by
  induction n with
  | zero =>
    unfold lastIdxGo at h
    split at h
    next hpre =>
      obtain rfl : (0 : Nat) = p := Option.some.inj h
      refine ⟨by simpa using hpre, Nat.le_refl 0, ?_⟩
      intro q hq hq0
      omega
    next => exact Option.noConfusion h
  | succ n ih =>
    unfold lastIdxGo at h
    split at h
    next hpre =>
      obtain rfl : n + 1 = p := Option.some.inj h
      refine ⟨hpre, Nat.le_refl _, ?_⟩
      intro q hq hq1
      omega
    next hpre =>
      obtain ⟨h1, h2, h3⟩ := ih h
      refine ⟨h1, Nat.le_succ_of_le h2, ?_⟩
      intro q hq hq1
      rcases Nat.lt_or_ge q (n + 1) with hlt | hge
      · exact h3 q hq (Nat.lt_succ_iff.mp hlt)
      · have hqe : q = n + 1 := Nat.le_antisymm hq1 hge
        subst hqe
        exact isPrefixOf_eq_false pat _ hpre

theorem lastIdxGo_none (pat s : List Char) (n : Nat)
    (h : lastIdxGo pat s n = none) :
    ∀ q ≤ n, pat.isPrefixOf (s.drop q) = false := by
  induction n with
  | zero =>
    unfold lastIdxGo at h
    split at h
    next => exact Option.noConfusion h
    next hpre =>
      intro q hq
      obtain rfl : q = 0 := Nat.le_zero.mp hq
      simpa using isPrefixOf_eq_false pat s hpre
  | succ n ih =>
    unfold lastIdxGo at h
    split at h
    next => exact Option.noConfusion h
    next hpre =>
      intro q hq
      rcases Nat.lt_or_ge q (n + 1) with hlt | hge
      · exact ih h q (Nat.lt_succ_iff.mp hlt)
      · have hqe : q = n + 1 := Nat.le_antisymm hq hge
        subst hqe
        exact isPrefixOf_eq_false pat _ hpre

theorem hasSub_false_no_occurrence (s pat : List Char)
    (h : hasSub s pat = false) :
    ∀ q ≤ s.length, pat.isPrefixOf (s.drop q) = false := by
  intro q hq
  have hmem := List.any_eq_false.mp h q (List.mem_range.mpr (Nat.lt_succ_of_le hq))
  exact isPrefixOf_eq_false pat _ hmem

theorem lastIndexOfSub_eq_none (s pat : List Char)
    (h : hasSub s pat = false) : lastIndexOfSub s pat = none := by
  cases hL : lastIndexOfSub s pat with
  | none => rfl
  | some p =>
    obtain ⟨h1, h2, _⟩ := lastIdxGo_some pat s s.length p hL
    rw [hasSub_false_no_occurrence s pat h p h2] at h1
    exact Bool.noConfusion h1

theorem lastIndexOfSub_isSome (s pat : List Char)
    (h : hasSub s pat = true) : ∃ p, lastIndexOfSub s pat = some p := by
  cases hL : lastIndexOfSub s pat with
  | some p => exact ⟨p, rfl⟩
  | none =>
    exfalso
    obtain ⟨i, hmem, hpre⟩ := List.any_eq_true.mp h
    have hle : i ≤ s.length := Nat.lt_succ_iff.mp (List.mem_range.mp hmem)
    have hfalse := lastIdxGo_none pat s s.length hL i hle
    rw [hfalse] at hpre
    exact Bool.noConfusion hpre

/-! ### Claim theorems -/

/-- C3: for every plain-text input, toFragment with the plain format
(escapeForEnml) yields a string in which every ampersand begins one of the
inserted entity sequences, every opening angle bracket begins an inserted
break element, and no closing angle bracket or double quote occurs outside
those insertions; moreover the number of newlines in the input equals the
number of break-element occurrences in the output. -/
theorem escapeForEnml_safe_and_counts (x : List Char) :
    goodEnml (escapeForEnml x) = true ∧
    countSub "<br/>".data (escapeForEnml x) = x.count '\n' := by
  rw [escapeForEnml_eq_flatMap]
  exact ⟨goodEnml_flatMap x, countSub_br_flatMap x⟩

/-- C8: the plain-text escaping is not idempotent: on the input consisting
of a single ampersand, one application yields the ampersand entity and a
second application double-escapes it. -/
theorem escapeForEnml_not_idempotent :
    escapeForEnml (escapeForEnml "&".data) ≠ escapeForEnml "&".data ∧
    escapeForEnml "&".data = "&amp;".data ∧
    escapeForEnml (escapeForEnml "&".data) = "&amp;amp;".data :=
  ⟨by decide, rfl, rfl⟩

/-- C7: the enml format tag is a pass-through identity for both the fragment
operation (toEnmlBody) and the document operation (toEnmlDocument),
whatever the markdown renderer is. -/
theorem enml_passthrough (render : List Char → List Char) (x : List Char) :
    toEnmlBody render x "enml".data = some x ∧
    toEnmlDocument render x "enml".data = x := by
  constructor
  · unfold toEnmlBody
    rw [if_neg (by decide), if_neg (by decide), if_pos rfl]
  · unfold toEnmlDocument
    rw [if_pos rfl]

/-- C9 counterexample: on the unrecognized format tag html, toEnmlBody
returns undefined (modelled none) and toEnmlDocument returns a complete
document whose body is the interpolated text "undefined" — a defined,
non-error output, refuting the claim that the formatter fails fast with an
InvalidFormat error (no such error exists in the code: the switch has no
default branch). -/
theorem invalidFormat_no_failfast :
    toEnmlBody id "x".data "html".data = none ∧
    toEnmlDocument id "x".data "html".data = wrapEnml "undefined".data :=
  ⟨rfl, rfl⟩

/-- C9 amended: for every format tag other than the three known ones, the
formatter does not fail: toEnmlBody silently returns undefined (none), and
toEnmlDocument returns a wrapped document whose body is the text
"undefined". -/
theorem invalidFormat_silent (render : List Char → List Char)
    (content format : List Char)
    (h1 : format ≠ "markdown".data) (h2 : format ≠ "plain".data)
    (h3 : format ≠ "enml".data) :
    toEnmlBody render content format = none ∧
    toEnmlDocument render content format = wrapEnml "undefined".data := by
  have hb : toEnmlBody render content format = none := by
    unfold toEnmlBody
    rw [if_neg h1, if_neg h2, if_neg h3]
  refine ⟨hb, ?_⟩
  unfold toEnmlDocument
  rw [if_neg h3, hb]
  rfl

theorem invalidFormat_silent_witness :
    toEnmlBody (fun s => s) "x".data "markdownish".data = none ∧
    toEnmlDocument (fun s => s) "x".data "markdownish".data =
      wrapEnml "undefined".data :=
  invalidFormat_silent (fun s => s) "x".data "markdownish".data
    (by decide) (by decide) (by decide)

/-- C10: the section name is spliced into the heading regex without escaping,
so it is treated as a pattern: with the name consisting of a dot and a plus,
the lookup matches the heading named Anything (prependToSection inserts into
that section and extractSection extracts it), and with the invalid pattern
consisting of a lone opening parenthesis the operation reports the regex
compilation failure (the thrown SyntaxError) rather than SectionNotFound. -/
theorem sectionName_treated_as_pattern :
    prependToSection docMeta ".+".data "z".data =
      .ok "<en-note><h1>Anything</h1><div>z</div><div>y</div></en-note>".data ∧
    extractSection docMeta ".+".data = .ok (some "y".data) ∧
    ".+".data ≠ "Anything".data ∧
    prependToSection "<en-note><h1>Tasks</h1></en-note>".data "(".data "z".data =
      .error .invalidRegex :=
  ⟨rfl, rfl, by decide, rfl⟩

/-- C5: at a document whose matching heading is immediately followed by the
next heading, extractSection does not stop the span at that next heading:
the truthiness test on the match index discards an offset-zero match, so the
span runs to the closing wrapper and the extracted text contains the second
heading and its content; appendToSection on the same document handles the
offset-zero match correctly and inserts before the next heading. -/
theorem extractSection_span_overruns_next_heading :
    extractSection docDup "Notes".data = .ok (some "notes x".data) ∧
    appendToSection docDup "Notes".data "z".data =
      .ok "<en-note><h1>Notes</h1><div>z</div><h1>notes</h1><div>x</div></en-note>".data :=
  ⟨rfl, rfl⟩

/-- C2: appendToSection on the example document inserts the new block after
the existing section content and immediately before the next heading; and
whenever appendToSection or prependToSection succeeds, the result is the
original document with a single div-wrapped escaped block inserted at one
position, every byte outside the insertion unchanged. -/
theorem appendToSection_scenario_and_frame :
    (appendToSection docTwoSections "Tasks".data "buy milk".data =
      .ok "<en-note><h1>Tasks</h1><div><br/></div><div>buy milk</div><h1>Notes</h1><div><br/></div></en-note>".data) ∧
    (∀ doc name frag out, appendToSection doc name frag = .ok out →
      ∃ p, out = doc.take p ++ "<div>".data ++ escapeNoteContent frag ++
        "</div>".data ++ doc.drop p) ∧
    (∀ doc name frag out, prependToSection doc name frag = .ok out →
      ∃ p, out = doc.take p ++ "<div>".data ++ escapeNoteContent frag ++
        "</div>".data ++ doc.drop p) := by
  refine ⟨rfl, ?_, ?_⟩
  · intro doc name frag out h
    unfold appendToSection at h
    split at h
    · exact Except.noConfusion h
    · split at h
      · exact Except.noConfusion h
      · exact ⟨_, (Except.ok.inj h).symm⟩
  · intro doc name frag out h
    unfold prependToSection at h
    split at h
    · exact Except.noConfusion h
    · split at h
      · exact Except.noConfusion h
      · exact ⟨_, (Except.ok.inj h).symm⟩

theorem appendToSection_frame_witness :
    ∃ p,
      ("<en-note><h1>Tasks</h1><div><br/></div><div>buy milk</div><h1>Notes</h1><div><br/></div></en-note>").data =
        docTwoSections.take p ++ "<div>".data ++
          escapeNoteContent "buy milk".data ++ "</div>".data ++
          docTwoSections.drop p :=
  appendToSection_scenario_and_frame.2.1 docTwoSections "Tasks".data
    "buy milk".data _ appendToSection_scenario_and_frame.1

/-- C4: appendToEnd fails with the malformed-document error exactly when the
closing wrapper tag is absent (producing no output string at all), and
otherwise inserts the wrapped fragment immediately before the last
occurrence of the closing tag. -/
theorem appendToEnd_error_or_last_occurrence :
    (∀ doc frag, hasSub doc endNoteTag = false →
      appendToEnd doc frag = .error .malformedEnml) ∧
    (∀ doc frag, hasSub doc endNoteTag = true →
      ∃ p, appendToEnd doc frag =
          .ok (doc.take p ++ "<div>".data ++ escapeNoteContent frag ++
            "</div>".data ++ doc.drop p) ∧
        endNoteTag.isPrefixOf (doc.drop p) = true ∧
        ∀ q, p < q → endNoteTag.isPrefixOf (doc.drop q) = false) := by
  constructor
  · intro doc frag h
    unfold appendToEnd
    rw [lastIndexOfSub_eq_none doc endNoteTag h]
  · intro doc frag h
    obtain ⟨p, hp⟩ := lastIndexOfSub_isSome doc endNoteTag h
    obtain ⟨h1, h2, h3⟩ := lastIdxGo_some endNoteTag doc doc.length p hp
    refine ⟨p, ?_, h1, ?_⟩
    · unfold appendToEnd
      rw [hp]
    · intro q hq
      rcases le_or_lt q doc.length with hle | hgt
      · exact h3 q hq hle
      · rw [List.drop_eq_nil_of_le (Nat.le_of_lt hgt)]
        decide

theorem appendToEnd_witness :
    appendToEnd "<en-note>x".data "y".data = .error .malformedEnml ∧
    ∃ p, appendToEnd "<en-note>x</en-note>".data "y".data =
        .ok (("<en-note>x</en-note>").data.take p ++ "<div>".data ++
          escapeNoteContent "y".data ++ "</div>".data ++
          ("<en-note>x</en-note>").data.drop p) ∧
      endNoteTag.isPrefixOf (("<en-note>x</en-note>").data.drop p) = true ∧
      ∀ q, p < q →
        endNoteTag.isPrefixOf (("<en-note>x</en-note>").data.drop q) = false :=
  ⟨appendToEnd_error_or_last_occurrence.1 "<en-note>x".data "y".data (by decide),
    appendToEnd_error_or_last_occurrence.2 "<en-note>x</en-note>".data "y".data
      (by decide)⟩

end AgentArtifacts